import Mathlib

/-!
Verification of the GoFund repository: a fund balance store (`fund.go`)
wrapped by a serializing actor (`FundServer`) that drains a command
channel in a single dispatch loop, plus the concurrent withdraw
benchmark (`fund_test.go`).

The embedding is shallow.  Go machine integers are modelled as `Int`
(no claim depends on 64-bit wraparound).  The command channel is the
sole source of commands for the single-reader dispatch loop, so a run
of the actor is determined by the FIFO sequence of commands the
channel delivers; that sequence is modelled as a `List Command`.
Writing to a reply channel is modelled as emitting a
(channel id, value) pair.  A Go `panic` in the loop is modelled as a
`panicked` flag on the run result: the loop stops and the remaining
queue contents are never processed.
-/

/-- The balance store of `fund.go`: a struct holding one private
integer field `balance`. -/
structure Fund where
  balance : Int
deriving DecidableEq, Repr

/-- Constructor `NewFund` from `fund.go`: constructs a `Fund` with
`balance = initialBalance`. -/
def NewFund (initialBalance : Int) : Fund :=
  { balance := initialBalance }

/-- Read operation `Fund.Balance` from `fund.go`: returns `f.balance`; no mutation. -/
def Fund.Balance (f : Fund) : Int :=
  f.balance

/-- Debit operation `Fund.Withdraw` from `fund.go`: `f.balance -= amount`,
unconditionally.  Modelled functionally: the returned `Fund` is the
updated store. -/
def Fund.Withdraw (f : Fund) (amount : Int) : Fund :=
  { f with balance := f.balance - amount }

/-- Modelled from the spec: the `WithdrawCommand` and `BalanceCommand`
struct declarations are not among the source files; their fields
(`Amount int`, `Response chan int`) are reconstructed from the spec's
two command variants and from their construction sites in
`fund_test.go`.  The Go channel carries `interface\x7b\x7d`, so payloads
outside the two recognized variants are possible; `UnknownCommand`
stands for any such payload (the spec's "unrecognized command
variant").  A reply channel is identified by a natural-number id. -/
inductive Command where
  | WithdrawCommand (Amount : Int)
  | BalanceCommand (Response : Nat)
  | UnknownCommand
deriving DecidableEq, Repr

/-- The reply channel id of a `BalanceCommand`, `none` for the other
variants. -/
def Command.queryChannel : Command → Option Nat
  | Command.BalanceCommand ch => some ch
  | _ => none

/-- The `FundServer` struct of the actor source file: it owns the fund.
The `Commands` channel is modelled as the input list fed to the loop,
not as a field. -/
structure FundServer where
  fund : Fund
deriving DecidableEq, Repr

/-- Constructor `NewFundServer`: constructs the server with `fund = NewFund
initialBalance` and spawns the loop (the spawn itself is the act of
running `FundServer.loop` on the command sequence). -/
def NewFundServer (initialBalance : Int) : FundServer :=
  { fund := NewFund initialBalance }

/-- Outcome of a run of the dispatch loop: final store state, the
sequence of (reply channel, value) writes performed, and whether the
loop ended by a panic (`true`) or by queue closure (`false`). -/
structure LoopResult where
  fund : Fund
  replies : List (Nat × Int)
  panicked : Bool
deriving DecidableEq, Repr

/-- The dispatch loop of `FundServer.loop`: takes commands one at a
time in arrival order; `WithdrawCommand` debits the fund,
`BalanceCommand` writes the current balance to the reply channel, any
other payload panics, which stops the loop with the rest of the queue
unprocessed; an empty queue (channel closed) ends the loop cleanly. -/
def FundServer.loop (f : Fund) : List Command → LoopResult
  | [] => ⟨f, [], false⟩
  | Command.WithdrawCommand amount :: cs =>
      FundServer.loop (f.Withdraw amount) cs
  | Command.BalanceCommand response :: cs =>
      let r := FundServer.loop f cs
      ⟨r.fund, (response, f.Balance) :: r.replies, r.panicked⟩
  | Command.UnknownCommand :: _ => ⟨f, [], true⟩

/-- A worker-to-channel schedule: at each step the named worker (an
index into the list of per-worker pending command lists) delivers its
next pending command to the channel, if it has one.  The resulting
list is the FIFO order in which the single-reader loop receives the
commands; quantifying over schedules quantifies over all
interleavings of the workers' submissions. -/
def mergeBySchedule : List Nat → List (List Command) → List Command
  | [], _ => []
  | i :: sched, ws =>
      match ws[i]? with
      | none => mergeBySchedule sched ws
      | some [] => mergeBySchedule sched ws
      | some (c :: rest) => c :: mergeBySchedule sched (ws.set i rest)

/-- Number of workers in `fund_test.go`. -/
def WORKERS : Nat := 10

/-- The per-worker workload of `BenchmarkWithdrawls`: each of the
`WORKERS` workers submits `N / WORKERS` copies of
`WithdrawCommand\x7bAmount: 1\x7d`. -/
def benchmarkWorkers (N : Nat) : List (List Command) :=
  List.replicate WORKERS
    (List.replicate (N / WORKERS) (Command.WithdrawCommand 1))

/-- The benchmark `BenchmarkWithdrawls` from `fund_test.go`, parameterized by the
iteration count `N` (Go's `b.N`), the interleaving `sched` of the ten
workers' submissions, and the reply channel id `ch` of the final
balance query.  Returns `none` when `N < WORKERS` (the benchmark
returns without submitting anything or checking anything); otherwise
returns the queried balance together with the zero-balance check's
outcome. -/
def BenchmarkWithdrawls (N : Nat) (sched : List Nat) (ch : Nat) :
    Option (Int × Bool) :=
  if N < WORKERS then none
  else
    let trace := mergeBySchedule sched (benchmarkWorkers N)
    let r := FundServer.loop (NewFund (N : Int)) (trace ++ [Command.BalanceCommand ch])
    match r.replies with
    | [(_, balance)] => some (balance, balance == 0)
    | _ => none

/-! ### General lemmas about the dispatch loop -/

/-- Consuming a block of withdrawals debits their sum and then
continues with the rest of the queue. -/
theorem loop_map_withdraw_append (as : List Int) (f : Fund)
    (rest : List Command) :
    FundServer.loop f (as.map Command.WithdrawCommand ++ rest)
      = FundServer.loop ⟨f.balance - as.sum⟩ rest := by
  induction as generalizing f with
  | nil => simp [FundServer.loop]
  | cons a as ih =>
      simp only [List.map_cons, List.cons_append, FundServer.loop,
        Fund.Withdraw, List.sum_cons, List.append_eq]
      rw [ih]
      ring_nf

/-- A trace consisting only of unit withdrawals debits its length. -/
theorem loop_all_unit_withdraw (t : List Command) (f : Fund)
    (rest : List Command)
    (h : ∀ c ∈ t, c = Command.WithdrawCommand 1) :
    FundServer.loop f (t ++ rest)
      = FundServer.loop ⟨f.balance - t.length⟩ rest := by
  induction t generalizing f with
  | nil => simp [FundServer.loop]
  | cons c cs ih =>
      have hc : c = Command.WithdrawCommand 1 := h c (by simp)
      subst hc
      simp only [List.cons_append, FundServer.loop, Fund.Withdraw,
        List.append_eq]
      rw [ih _ (fun c hm => h c (by simp [hm]))]
      congr 1
      simp
      ring

/-- Every command delivered by a schedule comes from one of the
workers' pending lists: if every pending command is a unit withdrawal,
so is every delivered command. -/
theorem mergeBySchedule_all_unit (sched : List Nat)
    (ws : List (List Command))
    (hws : ∀ l ∈ ws, ∀ c ∈ l, c = Command.WithdrawCommand 1) :
    ∀ c ∈ mergeBySchedule sched ws, c = Command.WithdrawCommand 1 := by
  induction sched generalizing ws with
  | nil => intro c hc; simp [mergeBySchedule] at hc
  | cons i sched ih =>
      intro c hc
      rw [mergeBySchedule] at hc
      rcases hget : ws[i]? with _ | ⟨_ | ⟨d, rest⟩⟩
      · rw [hget] at hc
        exact ih ws hws c hc
      · rw [hget] at hc
        exact ih ws hws c hc
      · rw [hget] at hc
        have hmem : (d :: rest) ∈ ws := by
          have := List.getElem?_eq_some.mp hget
          rcases this with ⟨hlt, heq⟩
          exact heq ▸ List.getElem_mem hlt
        rcases List.mem_cons.mp hc with hcd | hctail
        · exact hcd ▸ hws _ hmem d (by simp)
        · refine ih (ws.set i rest) ?_ c hctail
          intro l hl e he
          rcases List.mem_or_eq_of_mem_set hl with hl' | hl'
          · exact hws l hl' e he
          · exact hws _ hmem e (hl' ▸ List.mem_cons_of_mem d he)

/-! ### Claims -/

/-- C2: for a single caller submitting `Withdraw a1, ..., Withdraw an,
QueryBalance` to an actor started with balance `initial`, the value
received on the reply channel equals `initial - (a1 + ... + an)`, for
every choice of the amounts including negative ones; in particular
`initial = 100` followed by `Withdraw 30` then a query yields `70`. -/
theorem fund_server_fifo_single_caller (initial : Int) (as : List Int)
    (ch : Nat) :
    FundServer.loop (NewFund initial)
        (as.map Command.WithdrawCommand ++ [Command.BalanceCommand ch])
      = ⟨⟨initial - as.sum⟩, [(ch, initial - as.sum)], false⟩ ∧
    FundServer.loop (NewFund 100)
        [Command.WithdrawCommand 30, Command.BalanceCommand 0]
      = ⟨⟨70⟩, [(0, 70)], false⟩ := by
  constructor
  · rw [loop_map_withdraw_append]
    simp [FundServer.loop, NewFund, Fund.Balance]
  · decide

/-- C3: `Fund.Withdraw` sets `balance := balance - amount`
unconditionally, for every prior balance and every amount, with no
sufficient-funds check and no failure outcome (its type is total); in
particular withdrawing `5` from balance `0` leaves `-5`. -/
theorem fund_withdraw_unconditional (f : Fund) (amount : Int) :
    (f.Withdraw amount).balance = f.balance - amount ∧
    ((NewFund 0).Withdraw 5).balance = -5 := by
  exact ⟨rfl, by decide⟩

/-- C6: `NewFund initial` has `balance = initial` for every integer
`initial` (no sign constraint), `NewFundServer` starts the actor on
exactly that store, and an actor processing zero withdrawals answers a
query with exactly `initial`. -/
theorem new_fund_initial_balance (initial : Int) (ch : Nat) :
    (NewFund initial).balance = initial ∧
    (NewFundServer initial).fund = NewFund initial ∧
    FundServer.loop (NewFund initial) [Command.BalanceCommand ch]
      = ⟨⟨initial⟩, [(ch, initial)], false⟩ := by
  refine ⟨rfl, rfl, ?_⟩
  simp [FundServer.loop, NewFund, Fund.Balance]

/-- C7: `Fund.Balance` is a pure read: it returns the current balance
field, and the dispatch loop threads the store through a
`BalanceCommand` unchanged — the rest of the run (final fund, later
replies, panic status) is exactly the run on the remaining queue from
the same store state. -/
theorem balance_pure_read (f : Fund) (ch : Nat) (cs : List Command) :
    f.Balance = f.balance ∧
    FundServer.loop f (Command.BalanceCommand ch :: cs)
      = ⟨(FundServer.loop f cs).fund,
         (ch, f.balance) :: (FundServer.loop f cs).replies,
         (FundServer.loop f cs).panicked⟩ := by
  exact ⟨rfl, rfl⟩

/-- C9: withdrawals compose additively on the store: they commute,
two successive withdrawals equal the single withdrawal of the sum, and
withdrawing `0` is the identity. -/
theorem withdraw_additive (f : Fund) (a b : Int) :
    (f.Withdraw a).Withdraw b = (f.Withdraw b).Withdraw a ∧
    (f.Withdraw a).Withdraw b = f.Withdraw (a + b) ∧
    f.Withdraw 0 = f := by
  cases f
  refine ⟨?_, ?_, ?_⟩ <;> simp [Fund.Withdraw] <;> ring

/-- On a queue containing no unrecognized payload, the loop never takes
the panic path. -/
theorem loop_no_unknown_not_panicked (f : Fund) (cs : List Command)
    (h : Command.UnknownCommand ∉ cs) :
    (FundServer.loop f cs).panicked = false := by
  induction cs generalizing f with
  | nil => rfl
  | cons c cs ih =>
      cases c with
      | WithdrawCommand a =>
          exact ih (f.Withdraw a) (fun hm => h (List.mem_cons_of_mem _ hm))
      | BalanceCommand ch =>
          simpa [FundServer.loop] using
            ih f (fun hm => h (List.mem_cons_of_mem _ hm))
      | UnknownCommand => exact absurd (List.mem_cons_self _ _) h

/-- On a queue containing no unrecognized payload, the sequence of
reply channels written is exactly the sequence of query channels of
the commands, in order. -/
theorem loop_replies_map_fst (f : Fund) (cs : List Command)
    (h : Command.UnknownCommand ∉ cs) :
    (FundServer.loop f cs).replies.map Prod.fst
      = cs.filterMap Command.queryChannel := by
  induction cs generalizing f with
  | nil => rfl
  | cons c cs ih =>
      cases c with
      | WithdrawCommand a =>
          simpa [FundServer.loop, Command.queryChannel] using
            ih (f.Withdraw a) (fun hm => h (List.mem_cons_of_mem _ hm))
      | BalanceCommand ch =>
          simpa [FundServer.loop, Command.queryChannel] using
            ih f (fun hm => h (List.mem_cons_of_mem _ hm))
      | UnknownCommand => exact absurd (List.mem_cons_self _ _) h

/-- C4: a command payload outside the two recognized variants makes the
dispatch loop panic, terminating the actor with the rest of the queue
unprocessed and no replies written; on queues of recognized commands
the panic path is never taken. -/
theorem unknown_command_panics (f g : Fund) (cs ds : List Command) :
    FundServer.loop f (Command.UnknownCommand :: cs) = ⟨f, [], true⟩ ∧
    (Command.UnknownCommand ∉ ds →
      (FundServer.loop g ds).panicked = false) :=
  ⟨rfl, fun h => loop_no_unknown_not_panicked g ds h⟩

/-- Witness for C4 at concrete inputs. -/
theorem unknown_command_panics_witness :
    FundServer.loop ⟨5⟩ (Command.UnknownCommand :: [Command.WithdrawCommand 1])
      = ⟨⟨5⟩, [], true⟩ ∧
    (FundServer.loop ⟨7⟩
        [Command.WithdrawCommand 2, Command.BalanceCommand 0]).panicked
      = false :=
  ⟨(unknown_command_panics ⟨5⟩ ⟨7⟩ [Command.WithdrawCommand 1]
      [Command.WithdrawCommand 2, Command.BalanceCommand 0]).1,
   (unknown_command_panics ⟨5⟩ ⟨7⟩ [Command.WithdrawCommand 1]
      [Command.WithdrawCommand 2, Command.BalanceCommand 0]).2 (by decide)⟩

/-- C5: for every `BalanceCommand` the loop processes, exactly one
value is written to that command's reply channel — the sequence of
channels written equals the sequence of query channels in the queue,
so each query's channel is written once per query, never zero times
and never twice. -/
theorem query_reply_exactly_once (f : Fund) (cs : List Command)
    (h : Command.UnknownCommand ∉ cs) :
    (FundServer.loop f cs).replies.map Prod.fst
      = cs.filterMap Command.queryChannel ∧
    ∀ ch : Nat,
      ((FundServer.loop f cs).replies.map Prod.fst).count ch
        = (cs.filterMap Command.queryChannel).count ch := by
  have h1 := loop_replies_map_fst f cs h
  exact ⟨h1, fun ch => by rw [h1]⟩

/-- Witness for C5 at a concrete queue with two queries. -/
theorem query_reply_exactly_once_witness :
    Command.UnknownCommand ∉
      [Command.WithdrawCommand 5, Command.BalanceCommand 3,
       Command.BalanceCommand 7] ∧
    (FundServer.loop ⟨10⟩
        [Command.WithdrawCommand 5, Command.BalanceCommand 3,
         Command.BalanceCommand 7]).replies.map Prod.fst
      = [Command.WithdrawCommand 5, Command.BalanceCommand 3,
         Command.BalanceCommand 7].filterMap Command.queryChannel :=
  ⟨by decide,
   (query_reply_exactly_once ⟨10⟩
      [Command.WithdrawCommand 5, Command.BalanceCommand 3,
       Command.BalanceCommand 7] (by decide)).1⟩

/-- Counterexample to C8 as stated: the transition out of `Running` is
not triggered solely by closure of the command queue.  On the queue
`[UnknownCommand, WithdrawCommand 1]` the loop stops by panicking
while the queue still holds an unprocessed command: the final fund is
still `100`, the pending withdrawal was never applied, and the stop
was a panic, not a closure. -/
theorem actor_stop_only_by_closure_cex :
    (FundServer.loop (NewFund 100)
        [Command.UnknownCommand, Command.WithdrawCommand 1]).panicked
      = true ∧
    FundServer.loop (NewFund 100)
        [Command.UnknownCommand, Command.WithdrawCommand 1]
      = ⟨⟨100⟩, [], true⟩ := by
  decide

/-- C8 amended: the dispatch loop stops in exactly two ways — cleanly
when the command queue closes, or fatally when it dequeues an
unrecognized payload; both stops are terminal (nothing further is
processed), and on queues of recognized commands the only stop is
queue closure. -/
theorem actor_stop_modes (f : Fund) (cs ds : List Command) :
    FundServer.loop f [] = ⟨f, [], false⟩ ∧
    (Command.UnknownCommand ∉ cs →
      (FundServer.loop f cs).panicked = false) ∧
    FundServer.loop f (Command.UnknownCommand :: ds) = ⟨f, [], true⟩ :=
  ⟨rfl, fun h => loop_no_unknown_not_panicked f cs h, rfl⟩

/-- Witness for the amended C8 at concrete inputs. -/
theorem actor_stop_modes_witness :
    FundServer.loop ⟨3⟩ [] = ⟨⟨3⟩, [], false⟩ ∧
    (FundServer.loop ⟨3⟩ [Command.BalanceCommand 1]).panicked = false ∧
    FundServer.loop ⟨3⟩ (Command.UnknownCommand :: [Command.WithdrawCommand 4])
      = ⟨⟨3⟩, [], true⟩ :=
  ⟨(actor_stop_modes ⟨3⟩ [Command.BalanceCommand 1]
      [Command.WithdrawCommand 4]).1,
   (actor_stop_modes ⟨3⟩ [Command.BalanceCommand 1]
      [Command.WithdrawCommand 4]).2.1 (by decide),
   (actor_stop_modes ⟨3⟩ [Command.BalanceCommand 1]
      [Command.WithdrawCommand 4]).2.2⟩

/-- Every pending command of `W` workers each holding `K` unit
withdrawals is a unit withdrawal. -/
theorem replicate_workers_all_unit (W K : Nat) :
    ∀ l ∈ List.replicate W (List.replicate K (Command.WithdrawCommand 1)),
      ∀ c ∈ l, c = Command.WithdrawCommand 1 := by
  intro l hl c hc
  have hl' := List.eq_of_mem_replicate hl
  subst hl'
  exact List.eq_of_mem_replicate hc

/-- C1: for any number `W` of concurrent callers each submitting
`Withdraw 1` exactly `K` times to an actor started with balance
`W * K`, a query submitted after all withdraw submissions complete
returns exactly `0` — for every interleaving of the workers'
submissions (every schedule that delivers all `W * K` commands) and
hence for every worker-to-thread scheduling, since the single-reader
loop processes the delivered FIFO sequence one command at a time. -/
theorem concurrent_withdraw_serialization (W K : Nat) (sched : List Nat)
    (ch : Nat)
    (hlen : (mergeBySchedule sched
        (List.replicate W (List.replicate K (Command.WithdrawCommand 1)))).length
      = W * K) :
    FundServer.loop (NewFund ((W * K : Nat) : Int))
        (mergeBySchedule sched
            (List.replicate W (List.replicate K (Command.WithdrawCommand 1)))
          ++ [Command.BalanceCommand ch])
      = ⟨⟨0⟩, [(ch, 0)], false⟩ := by
  have hall := mergeBySchedule_all_unit sched
    (List.replicate W (List.replicate K (Command.WithdrawCommand 1)))
    (replicate_workers_all_unit W K)
  rw [loop_all_unit_withdraw _ _ _ hall, hlen]
  simp [FundServer.loop, NewFund, Fund.Balance]

/-- Witness for C1: two workers, three unit withdrawals each, initial
balance six, a schedule delivering all six commands. -/
theorem concurrent_withdraw_serialization_witness :
    (mergeBySchedule [0, 0, 0, 1, 1, 1]
        (List.replicate 2 (List.replicate 3 (Command.WithdrawCommand 1)))).length
      = 2 * 3 ∧
    FundServer.loop (NewFund ((2 * 3 : Nat) : Int))
        (mergeBySchedule [0, 0, 0, 1, 1, 1]
            (List.replicate 2 (List.replicate 3 (Command.WithdrawCommand 1)))
          ++ [Command.BalanceCommand 0])
      = ⟨⟨0⟩, [(0, 0)], false⟩ :=
  ⟨by decide, concurrent_withdraw_serialization 2 3 [0, 0, 0, 1, 1, 1] 0 (by decide)⟩

/-- C10: in the benchmark, when `N ≥ WORKERS`, each worker submits
exactly `N / WORKERS` unit withdrawals (integer division), the
balance the final query returns is `N - WORKERS * (N / WORKERS)
= N % WORKERS` for every complete interleaving of the workers'
submissions, and the zero-balance check passes exactly when `WORKERS`
divides `N`; when `N < WORKERS` the benchmark submits no commands and
performs no check. -/
theorem benchmark_zero_check (N : Nat) (sched : List Nat) (ch : Nat)
    (hN : WORKERS ≤ N)
    (hlen : (mergeBySchedule sched (benchmarkWorkers N)).length
      = WORKERS * (N / WORKERS)) :
    BenchmarkWithdrawls N sched ch
      = some (((N % WORKERS : Nat) : Int),
              ((N % WORKERS : Nat) : Int) == 0) ∧
    (BenchmarkWithdrawls N sched ch
        = some (((N % WORKERS : Nat) : Int), true) ↔ WORKERS ∣ N) ∧
    (∀ M : Nat, M < WORKERS → BenchmarkWithdrawls M sched ch = none) := by
  have hall := mergeBySchedule_all_unit sched (benchmarkWorkers N)
    (replicate_workers_all_unit WORKERS (N / WORKERS))
  have hbal : ((N : Int) - ((mergeBySchedule sched (benchmarkWorkers N)).length : Int))
      = ((N % WORKERS : Nat) : Int) := by
    rw [hlen]
    simp only [WORKERS]
    push_cast
    omega
  have hmain : BenchmarkWithdrawls N sched ch
      = some (((N % WORKERS : Nat) : Int),
              ((N % WORKERS : Nat) : Int) == 0) := by
    unfold BenchmarkWithdrawls
    rw [if_neg (Nat.not_lt.mpr hN)]
    dsimp only
    rw [loop_all_unit_withdraw _ _ _ hall]
    simp only [NewFund] at *
    rw [hbal]
    simp [FundServer.loop, Fund.Balance]
  refine ⟨hmain, ?_, ?_⟩
  · rw [hmain]
    simp [Nat.dvd_iff_mod_eq_zero, WORKERS]
    omega
  · intro M hM
    unfold BenchmarkWithdrawls
    rw [if_pos hM]

/-- Witness for C10: `N = 20`, a schedule delivering each of the ten
workers' two unit withdrawals. -/
theorem benchmark_zero_check_witness :
    WORKERS ≤ 20 ∧
    (mergeBySchedule [0, 0, 1, 1, 2, 2, 3, 3, 4, 4, 5, 5, 6, 6, 7, 7, 8, 8, 9, 9]
        (benchmarkWorkers 20)).length = WORKERS * (20 / WORKERS) ∧
    BenchmarkWithdrawls 20
        [0, 0, 1, 1, 2, 2, 3, 3, 4, 4, 5, 5, 6, 6, 7, 7, 8, 8, 9, 9] 0
      = some (((20 % WORKERS : Nat) : Int),
              ((20 % WORKERS : Nat) : Int) == 0) :=
  ⟨by decide, by decide,
   (benchmark_zero_check 20
      [0, 0, 1, 1, 2, 2, 3, 3, 4, 4, 5, 5, 6, 6, 7, 7, 8, 8, 9, 9] 0
      (by decide) (by decide)).1⟩
